import Mathlib

/-!
Verification of the recipe API serializer layer (`app/recipe/serializers.py`)
and the spec-described view behaviour of the tag / ingredient / recipe
endpoints, over a shallow embedding of the Django ORM state.

The ORM database is a record of tables (lists of rows).  `Tag` and
`Ingredient` are distinct models in the source but have identical fields
(`id`, `user`, `name`), so both tables are lists of one row structure and the
get-or-create loop of `RecipeSerializer._get_or_create_tags` /
`_get_or_create_ingredient` is embedded once and instantiated for each table.
-/

namespace RecipeApp

/-- A `Tag` or `Ingredient` row: both models have an id, an owning user and a
name.  The serializers expose fields `['id', 'name']` with `id` read-only, so
a validated nested payload entry is just a name. -/
structure Row where
  id : Nat
  user : Nat
  name : String
deriving DecidableEq, Repr

/-- A `Recipe` row.  `price` is a `Decimal` in the source, embedded as an
integer number of cents; the many-to-many relations `tags` / `ingredients`
are the lists of associated row ids. -/
structure Recipe where
  id : Nat
  user : Nat
  title : String
  time_minutes : Nat
  price : Int
  link : String
  description : String
  tags : List Nat
  ingredients : List Nat
deriving DecidableEq, Repr

/-- The ORM state: the three tables plus the auto-increment counters. -/
structure DB where
  tags : List Row
  ingredients : List Row
  recipes : List Recipe
  nextTagId : Nat
  nextIngredientId : Nat
  nextRecipeId : Nat
deriving DecidableEq, Repr

/-- First row of a table matching `(user, name)` — the row
`Model.objects.get_or_create(user=..., name=...)` would fetch. -/
def findMatch (rows : List Row) (u : Nat) (n : String) : Option Row :=
  rows.find? (fun t => t.user == u && t.name == n)

/-- `Model.objects.get_or_create(user=auth_user, name=n)` on one table: return
the existing row when one matches, otherwise append a fresh row with the next
auto-increment id.  Result: the row, the new table, the new counter. -/
def rowGetOrCreate (rows : List Row) (nextId : Nat) (u : Nat) (n : String) :
    Row × List Row × Nat :=
  match findMatch rows u n with
  | some t => (t, rows, nextId)
  | none =>
    let t : Row := ⟨nextId, u, n⟩
    (t, rows ++ [t], nextId + 1)

/-- `recipe.tags.add(obj)`: a many-to-many add is a no-op when the
association already exists. -/
def m2mAdd (assoc : List Nat) (i : Nat) : List Nat :=
  if i ∈ assoc then assoc else assoc ++ [i]

/-- The loop body of `RecipeSerializer._get_or_create_tags` (and, on the
ingredient table, of `_get_or_create_ingredient`): for each payload name,
get-or-create the row for the authenticated user, then add it to the
recipe's many-to-many association list.  Returns the final table, counter
and association list. -/
def attachLoop (rows : List Row) (nextId : Nat) (u : Nat)
    (names : List String) (assoc : List Nat) : List Row × Nat × List Nat :=
  match names with
  | [] => (rows, nextId, assoc)
  | n :: rest =>
    let p := rowGetOrCreate rows nextId u n
    attachLoop p.2.1 p.2.2 u rest (m2mAdd assoc p.1.id)

/-- The ids the get-or-create loop resolves the payload names to, in order
(one id per name, duplicates included). -/
def resolveIds (rows : List Row) (nextId : Nat) (u : Nat)
    (names : List String) : List Nat :=
  match names with
  | [] => []
  | n :: rest =>
    let p := rowGetOrCreate rows nextId u n
    p.1.id :: resolveIds p.2.1 p.2.2 u rest

/-- Validated data for a recipe create (`RecipeSerializer.create`): the
scalar model fields plus the optional nested lists (`required=False`, so a
key may be absent — `none`). -/
structure RecipeCreateInput where
  title : String
  time_minutes : Nat
  price : Int
  link : String
  description : String
  tags : Option (List String)
  ingredients : Option (List String)
deriving DecidableEq, Repr

/-- Validated data for a recipe PATCH (`RecipeSerializer.update`): every
field may be absent from the payload. -/
structure RecipeUpdateInput where
  title : Option String
  time_minutes : Option Nat
  price : Option Int
  link : Option String
  description : Option String
  tags : Option (List String)
  ingredients : Option (List String)
deriving DecidableEq, Repr

/-- `RecipeSerializer.create`: pop `tags` and `ingredients` with default
`[]`, create the recipe row, then run the get-or-create loops.  Returns the
created recipe and the new state. -/
def recipeCreate (db : DB) (u : Nat) (inp : RecipeCreateInput) :
    Recipe × DB :=
  let tags := inp.tags.getD []
  let ings := inp.ingredients.getD []
  let rid := db.nextRecipeId
  let pt := attachLoop db.tags db.nextTagId u tags []
  let pi := attachLoop db.ingredients db.nextIngredientId u ings []
  let r : Recipe :=
    ⟨rid, u, inp.title, inp.time_minutes, inp.price, inp.link,
     inp.description, pt.2.2, pi.2.2⟩
  (r, { tags := pt.1
        ingredients := pi.1
        recipes := db.recipes ++ [r]
        nextTagId := pt.2.1
        nextIngredientId := pi.2.1
        nextRecipeId := rid + 1 })

/-- First recipe row with the given id (`Recipe.objects.get(id=...)`). -/
def findRecipe (db : DB) (rid : Nat) : Option Recipe :=
  db.recipes.find? (fun r => r.id == rid)

/-- `RecipeSerializer.update` on the recipe with id `rid`: pop `tags` and
`ingredients` with default `None`; when a list is present, clear the
association and rerun the get-or-create loop (so the loop starts from an
empty association list); set the remaining scalar attributes; save.  When no
recipe has id `rid` the serializer is never reached and the state is
unchanged. -/
def recipeUpdate (db : DB) (u : Nat) (rid : Nat) (inp : RecipeUpdateInput) :
    DB :=
  match findRecipe db rid with
  | none => db
  | some r =>
    let pt :=
      match inp.tags with
      | none => (db.tags, db.nextTagId, r.tags)
      | some l => attachLoop db.tags db.nextTagId u l []
    let pi :=
      match inp.ingredients with
      | none => (db.ingredients, db.nextIngredientId, r.ingredients)
      | some l => attachLoop db.ingredients db.nextIngredientId u l []
    let r2 : Recipe :=
      { r with
        title := inp.title.getD r.title
        time_minutes := inp.time_minutes.getD r.time_minutes
        price := inp.price.getD r.price
        link := inp.link.getD r.link
        description := inp.description.getD r.description
        tags := pt.2.2
        ingredients := pi.2.2 }
    { tags := pt.1
      ingredients := pi.1
      recipes := db.recipes.map (fun x => if x.id == rid then r2 else x)
      nextTagId := pt.2.1
      nextIngredientId := pi.2.1
      nextRecipeId := db.nextRecipeId }

/-- Keep the first occurrence of every row, dropping later duplicates — the
effect of `.distinct()` on the join result. -/
def dedupRows : List Row → List Row
  | [] => []
  | t :: rest => t :: dedupRows (rest.filter (fun x => x ≠ t))
termination_by l => l.length
decreasing_by
  exact Nat.lt_succ_of_le (List.length_filter_le _ _)

/-- Modelled from the spec: the list behaviour of the tag / ingredient
viewsets (`app/recipe/views.py` is not under `src/`).  Authentication is
required (HTTP 401 otherwise); the queryset is limited to rows owned by the
requesting user; with `assigned_only=1` it is joined against the recipe
association (one copy of a row per associated recipe, as the SQL join
produces) and then deduplicated (`.filter(recipe__isnull=False).distinct()`). -/
def rowList (rows : List Row) (recipes : List Recipe)
    (assocOf : Recipe → List Nat) (auth : Option Nat) (assignedOnly : Bool) :
    Nat × List Row :=
  match auth with
  | none => (401, [])
  | some u =>
    let owned := rows.filter (fun t => t.user == u)
    if assignedOnly then
      let joined := owned.flatMap (fun t =>
        (recipes.filter (fun r => (assocOf r).contains t.id)).map (fun _ => t))
      (200, dedupRows joined)
    else
      (200, owned)

/-- Modelled from the spec: GET on the tag list endpoint. -/
def tagList (db : DB) (auth : Option Nat) (assignedOnly : Bool) :
    Nat × List Row :=
  rowList db.tags db.recipes (fun r => r.tags) auth assignedOnly

/-- Modelled from the spec: GET on the ingredient list endpoint. -/
def ingredientList (db : DB) (auth : Option Nat) (assignedOnly : Bool) :
    Nat × List Row :=
  rowList db.ingredients db.recipes (fun r => r.ingredients) auth assignedOnly

/-- Modelled from the spec: GET on the recipe list endpoint — authentication
required, results limited to the requesting user's recipes. -/
def recipeList (db : DB) (auth : Option Nat) : Nat × List Recipe :=
  match auth with
  | none => (401, [])
  | some u => (200, db.recipes.filter (fun r => r.user == u))

/-- Modelled from the spec: PATCH on a tag / ingredient detail endpoint with
payload `{'name': newName}`.  401 without authentication; 404 when the id is
not in the requesting user's queryset; otherwise the row is renamed and 200
returned. -/
def rowPatch (rows : List Row) (auth : Option Nat) (tid : Nat)
    (newName : String) : Nat × List Row :=
  match auth with
  | none => (401, rows)
  | some u =>
    match (rows.filter (fun t => t.user == u)).find? (fun t => t.id == tid) with
    | none => (404, rows)
    | some _ =>
      (200, rows.map (fun t =>
        if t.user == u && t.id == tid then { t with name := newName } else t))

/-- Modelled from the spec: DELETE on a tag / ingredient detail endpoint.
401 without authentication; 404 when the id is not in the requesting user's
queryset; otherwise the row is removed and 204 returned. -/
def rowDelete (rows : List Row) (auth : Option Nat) (tid : Nat) :
    Nat × List Row :=
  match auth with
  | none => (401, rows)
  | some u =>
    match (rows.filter (fun t => t.user == u)).find? (fun t => t.id == tid) with
    | none => (404, rows)
    | some _ => (204, rows.filter (fun t => !(t.user == u && t.id == tid)))

/-- Modelled from the spec: PATCH on the tag detail endpoint. -/
def tagPatch (db : DB) (auth : Option Nat) (tid : Nat) (newName : String) :
    Nat × DB :=
  let p := rowPatch db.tags auth tid newName
  (p.1, { db with tags := p.2 })

/-- Modelled from the spec: PATCH on the ingredient detail endpoint. -/
def ingredientPatch (db : DB) (auth : Option Nat) (tid : Nat)
    (newName : String) : Nat × DB :=
  let p := rowPatch db.ingredients auth tid newName
  (p.1, { db with ingredients := p.2 })

/-- Modelled from the spec: DELETE on the tag detail endpoint. -/
def tagDelete (db : DB) (auth : Option Nat) (tid : Nat) : Nat × DB :=
  let p := rowDelete db.tags auth tid
  (p.1, { db with tags := p.2 })

/-- Modelled from the spec: DELETE on the ingredient detail endpoint. -/
def ingredientDelete (db : DB) (auth : Option Nat) (tid : Nat) : Nat × DB :=
  let p := rowDelete db.ingredients auth tid
  (p.1, { db with ingredients := p.2 })

/-- Modelled from the spec: PATCH on the recipe detail endpoint — the view
resolves the instance in the requesting user's queryset, then delegates to
`RecipeSerializer.update` (which is `recipeUpdate`, embedded from the
source). -/
def recipePatch (db : DB) (auth : Option Nat) (rid : Nat)
    (inp : RecipeUpdateInput) : Nat × DB :=
  match auth with
  | none => (401, db)
  | some u =>
    match (db.recipes.filter (fun r => r.user == u)).find?
        (fun r => r.id == rid) with
    | none => (404, db)
    | some _ => (200, recipeUpdate db u rid inp)

/-- First row with the given id — a subsequent read of the record. -/
def findRow (rows : List Row) (tid : Nat) : Option Row :=
  rows.find? (fun t => t.id == tid)

/-- No two rows of a table share the same `(user, name)` pair. -/
def UniquePairs (rows : List Row) : Prop :=
  rows.Pairwise (fun a b => a.user ≠ b.user ∨ a.name ≠ b.name)

/-- No two rows of a table share the same id. -/
def UniqueIds (rows : List Row) : Prop :=
  rows.Pairwise (fun a b => a.id ≠ b.id)

instance instDecUniquePairs (rows : List Row) :
    Decidable (UniquePairs rows) := by
  unfold UniquePairs; infer_instance

instance instDecUniqueIds (rows : List Row) :
    Decidable (UniqueIds rows) := by
  unfold UniqueIds; infer_instance

/-! ### Basic facts about `findMatch`, `rowGetOrCreate` and `m2mAdd` -/

theorem findMatch_user_name {rows : List Row} {u : Nat} {n : String} {t : Row}
    (h : findMatch rows u n = some t) : t.user = u ∧ t.name = n := by
  have h2 := List.find?_some h
  simp only [Bool.and_eq_true, beq_iff_eq] at h2
  exact h2

theorem findMatch_mem {rows : List Row} {u : Nat} {n : String} {t : Row}
    (h : findMatch rows u n = some t) : t ∈ rows :=
  List.mem_of_find?_eq_some h

theorem findMatch_none {rows : List Row} {u : Nat} {n : String}
    (h : findMatch rows u n = none) :
    ∀ t ∈ rows, ¬(t.user = u ∧ t.name = n) := by
  intro t ht
  have h2 := List.find?_eq_none.mp h t ht
  simpa using h2

theorem findMatch_append_some {rows s : List Row} {u : Nat} {n : String}
    {t : Row} (h : findMatch rows u n = some t) :
    findMatch (rows ++ s) u n = some t := by
  unfold findMatch at *
  rw [List.find?_append, h]
  rfl

theorem rowGetOrCreate_table (rows : List Row) (next u : Nat) (n : String) :
    ∃ s, (rowGetOrCreate rows next u n).2.1 = rows ++ s := by
  unfold rowGetOrCreate
  cases h : findMatch rows u n with
  | some t => exact ⟨[], by simp⟩
  | none => exact ⟨[⟨next, u, n⟩], rfl⟩

theorem mem_m2mAdd {assoc : List Nat} {i j : Nat} :
    i ∈ m2mAdd assoc j ↔ i ∈ assoc ∨ i = j := by
  unfold m2mAdd
  by_cases h : j ∈ assoc
  · rw [if_pos h]
    constructor
    · exact Or.inl
    · rintro (hi | rfl)
      · exact hi
      · exact h
  · rw [if_neg h]
    simp

theorem nodup_m2mAdd {assoc : List Nat} {j : Nat} (h : assoc.Nodup) :
    (m2mAdd assoc j).Nodup := by
  unfold m2mAdd
  by_cases hj : j ∈ assoc
  · rwa [if_pos hj]
  · rw [if_neg hj]
    simp [List.nodup_append, h, hj]

/-! ### The get-or-create loop -/

theorem attachLoop_nil (rows : List Row) (next u : Nat) (assoc : List Nat) :
    attachLoop rows next u [] assoc = (rows, next, assoc) := rfl

theorem attachLoop_cons (rows : List Row) (next u : Nat) (n : String)
    (rest : List String) (assoc : List Nat) :
    attachLoop rows next u (n :: rest) assoc =
      attachLoop (rowGetOrCreate rows next u n).2.1
        (rowGetOrCreate rows next u n).2.2 u rest
        (m2mAdd assoc (rowGetOrCreate rows next u n).1.id) := rfl

theorem resolveIds_cons (rows : List Row) (next u : Nat) (n : String)
    (rest : List String) :
    resolveIds rows next u (n :: rest) =
      (rowGetOrCreate rows next u n).1.id ::
        resolveIds (rowGetOrCreate rows next u n).2.1
          (rowGetOrCreate rows next u n).2.2 u rest := rfl

theorem attachLoop_table (u : Nat) (names : List String) :
    ∀ rows next assoc, ∃ s,
      (attachLoop rows next u names assoc).1 = rows ++ s := by
  induction names with
  | nil => exact fun rows next assoc => ⟨[], by simp [attachLoop_nil]⟩
  | cons n rest ih =>
    intro rows next assoc
    obtain ⟨s1, hs1⟩ := rowGetOrCreate_table rows next u n
    obtain ⟨s2, hs2⟩ := ih (rowGetOrCreate rows next u n).2.1
      (rowGetOrCreate rows next u n).2.2
      (m2mAdd assoc (rowGetOrCreate rows next u n).1.id)
    refine ⟨s1 ++ s2, ?_⟩
    rw [attachLoop_cons, hs2, hs1, List.append_assoc]

theorem attachLoop_assoc_mem (u : Nat) (names : List String) :
    ∀ rows next assoc (i : Nat),
      i ∈ (attachLoop rows next u names assoc).2.2 ↔
        i ∈ assoc ∨ i ∈ resolveIds rows next u names := by
  induction names with
  | nil => intro rows next assoc i; simp [attachLoop_nil, resolveIds]
  | cons n rest ih =>
    intro rows next assoc i
    rw [attachLoop_cons, resolveIds_cons,
      ih _ _ (m2mAdd assoc (rowGetOrCreate rows next u n).1.id) i]
    rw [mem_m2mAdd, List.mem_cons]
    tauto

theorem attachLoop_assoc_nodup (u : Nat) (names : List String) :
    ∀ rows next assoc, assoc.Nodup →
      (attachLoop rows next u names assoc).2.2.Nodup := by
  induction names with
  | nil => intro rows next assoc h; exact h
  | cons n rest ih =>
    intro rows next assoc h
    rw [attachLoop_cons]
    exact ih _ _ _ (nodup_m2mAdd h)

/-- Each payload name resolves to a row: in the final table, owned by the
requesting user, with the payload's name, associated to the recipe; it is
the pre-existing matching row when one exists and a row new to the table
otherwise. -/
theorem attachLoop_resolves (u : Nat) (names : List String) :
    ∀ rows next assoc, ∀ n ∈ names, ∃ t : Row,
      t ∈ (attachLoop rows next u names assoc).1 ∧
      t.user = u ∧ t.name = n ∧
      t.id ∈ (attachLoop rows next u names assoc).2.2 ∧
      (∀ t0, findMatch rows u n = some t0 → t = t0) ∧
      (findMatch rows u n = none → t ∉ rows) := by
  induction names with
  | nil => intro rows next assoc n hn; cases hn
  | cons m rest ih =>
    intro rows next assoc n hn
    rw [attachLoop_cons]
    rcases List.mem_cons.mp hn with rfl | hn
    · -- the head entry itself
      cases h : findMatch rows u n with
      | some t0 =>
        have hstep : rowGetOrCreate rows next u n = (t0, rows, next) := by
          unfold rowGetOrCreate; rw [h]
        rw [hstep]
        obtain ⟨s, hs⟩ := attachLoop_table u rest rows next (m2mAdd assoc t0.id)
        refine ⟨t0, ?_, (findMatch_user_name h).1, (findMatch_user_name h).2,
          ?_, ?_, ?_⟩
        · rw [hs]; exact List.mem_append_left s (findMatch_mem h)
        · exact (attachLoop_assoc_mem u rest rows next _ t0.id).mpr
            (Or.inl (mem_m2mAdd.mpr (Or.inr rfl)))
        · intro t0' h0; exact Option.some.inj h0
        · intro h0; cases h0
      | none =>
        have hstep : rowGetOrCreate rows next u n =
            (⟨next, u, n⟩, rows ++ [⟨next, u, n⟩], next + 1) := by
          unfold rowGetOrCreate; rw [h]
        rw [hstep]
        obtain ⟨s, hs⟩ := attachLoop_table u rest (rows ++ [⟨next, u, n⟩])
          (next + 1) (m2mAdd assoc next)
        refine ⟨⟨next, u, n⟩, ?_, rfl, rfl, ?_, ?_, ?_⟩
        · rw [hs]
          exact List.mem_append_left s (List.mem_append_right rows (by simp))
        · exact (attachLoop_assoc_mem u rest _ _ _ next).mpr
            (Or.inl (mem_m2mAdd.mpr (Or.inr rfl)))
        · intro t0 h0; cases h0
        · intro _ hmem
          exact findMatch_none h ⟨next, u, n⟩ hmem ⟨rfl, rfl⟩
    · -- an entry of the tail: use the induction hypothesis at the
      -- stepped state and transport the two `findMatch` clauses back
      obtain ⟨s1, hs1⟩ := rowGetOrCreate_table rows next u m
      obtain ⟨t, ht1, ht2, ht3, ht4, ht5, ht6⟩ :=
        ih (rowGetOrCreate rows next u m).2.1 (rowGetOrCreate rows next u m).2.2
          (m2mAdd assoc (rowGetOrCreate rows next u m).1.id) n hn
      refine ⟨t, ht1, ht2, ht3, ht4, ?_, ?_⟩
      · intro t0 h0
        exact ht5 t0 (by rw [hs1]; exact findMatch_append_some h0)
      · intro h0 hmem
        cases h1 : findMatch (rowGetOrCreate rows next u m).2.1 u n with
        | some t1 =>
          have h2 := ht5 t1 h1
          have h3 := findMatch_user_name h1
          exact findMatch_none h0 t hmem (h2 ▸ h3)
        | none =>
          exact ht6 h1 (by rw [hs1]; exact List.mem_append_left s1 hmem)

/-! ### Uniqueness of `(user, name)` pairs -/

theorem rowGetOrCreate_uniquePairs {rows : List Row} (next u : Nat)
    (n : String) (h : UniquePairs rows) :
    UniquePairs (rowGetOrCreate rows next u n).2.1 := by
  unfold rowGetOrCreate
  cases hf : findMatch rows u n with
  | some t => exact h
  | none =>
    unfold UniquePairs at *
    rw [List.pairwise_append]
    refine ⟨h, List.pairwise_singleton _ _, ?_⟩
    intro a ha b hb
    have hb2 : b = (⟨next, u, n⟩ : Row) := by simpa using hb
    subst hb2
    have := findMatch_none hf a ha
    tauto

theorem attachLoop_uniquePairs (u : Nat) (names : List String) :
    ∀ rows next assoc, UniquePairs rows →
      UniquePairs (attachLoop rows next u names assoc).1 := by
  induction names with
  | nil => intro rows next assoc h; exact h
  | cons n rest ih =>
    intro rows next assoc h
    rw [attachLoop_cons]
    exact ih _ _ _ (rowGetOrCreate_uniquePairs next u n h)

theorem uniquePairs_filter_singleton {rows : List Row} {u : Nat} {n : String}
    {t : Row} (hu : UniquePairs rows) (ht : t ∈ rows) (h1 : t.user = u)
    (h2 : t.name = n) :
    rows.filter (fun x => x.user == u && x.name == n) = [t] := by
  induction rows with
  | nil => cases ht
  | cons a rest ih =>
    have hpw := (List.pairwise_cons.mp hu)
    rcases List.mem_cons.mp ht with rfl | hmem
    · have hpa : (t.user == u && t.name == n) = true := by
        simp [h1, h2]
      rw [List.filter_cons, if_pos hpa]
      have hnil : rest.filter (fun x => x.user == u && x.name == n) = [] := by
        rw [List.filter_eq_nil_iff]
        intro b hb hpb
        simp only [Bool.and_eq_true, beq_iff_eq] at hpb
        have h3 := hpw.1 b hb
        rw [h1, h2] at h3
        tauto
      rw [hnil]
    · have hpa : ¬((a.user == u && a.name == n) = true) := by
        intro hpb
        simp only [Bool.and_eq_true, beq_iff_eq] at hpb
        have h3 := hpw.1 t hmem
        rw [hpb.1, hpb.2, h1, h2] at h3
        tauto
      rw [List.filter_cons, if_neg hpa]
      exact ih hpw.2 hmem

/-- When a name occurs in the payload: exactly one row of the final table
matches `(user, name)`, and (starting from a cleared association list) the
recipe is associated to it exactly once. -/
theorem attachLoop_once (u : Nat) (names : List String) (rows : List Row)
    (next : Nat) (n : String) (hu : UniquePairs rows) (hn : n ∈ names) :
    ∃ t : Row,
      (attachLoop rows next u names []).1.filter
        (fun x => x.user == u && x.name == n) = [t] ∧
      (attachLoop rows next u names []).2.2.count t.id = 1 := by
  obtain ⟨t, ht1, ht2, ht3, ht4, _, _⟩ :=
    attachLoop_resolves u names rows next [] n hn
  refine ⟨t, uniquePairs_filter_singleton
    (attachLoop_uniquePairs u names rows next [] hu) ht1 ht2 ht3, ?_⟩
  exact List.count_eq_one_of_mem
    (attachLoop_assoc_nodup u names rows next [] List.nodup_nil) ht4

/-! ### Idempotence of duplicate payload entries -/

theorem attachLoop_append (u : Nat) (xs : List String) :
    ∀ (ys : List String) rows next assoc,
      attachLoop rows next u (xs ++ ys) assoc =
        attachLoop (attachLoop rows next u xs assoc).1
          (attachLoop rows next u xs assoc).2.1 u ys
          (attachLoop rows next u xs assoc).2.2 := by
  induction xs with
  | nil => intro ys rows next assoc; rfl
  | cons m xs ih => intro ys rows next assoc; exact ih ys _ _ _

/-- The state already holds a resolution for `(user, name)`: the table has a
matching row and its id is in the association list. -/
def HasResolved (rows : List Row) (assoc : List Nat) (u : Nat)
    (n : String) : Prop :=
  ∃ t0, findMatch rows u n = some t0 ∧ t0.id ∈ assoc

theorem hasResolved_step {rows : List Row} {assoc : List Nat} {u : Nat}
    {n : String} (next : Nat) (m : String)
    (h : HasResolved rows assoc u n) :
    HasResolved (rowGetOrCreate rows next u m).2.1
      (m2mAdd assoc (rowGetOrCreate rows next u m).1.id) u n := by
  obtain ⟨t0, hf, hm⟩ := h
  obtain ⟨s, hs⟩ := rowGetOrCreate_table rows next u m
  exact ⟨t0, by rw [hs]; exact findMatch_append_some hf,
    mem_m2mAdd.mpr (Or.inl hm)⟩

theorem hasResolved_after {rows : List Row} {assoc : List Nat} {u : Nat}
    {n : String} (next : Nat) :
    HasResolved (rowGetOrCreate rows next u n).2.1
      (m2mAdd assoc (rowGetOrCreate rows next u n).1.id) u n := by
  unfold rowGetOrCreate
  cases h : findMatch rows u n with
  | some t0 => exact ⟨t0, h, mem_m2mAdd.mpr (Or.inr rfl)⟩
  | none =>
    refine ⟨⟨next, u, n⟩, ?_, mem_m2mAdd.mpr (Or.inr rfl)⟩
    unfold findMatch at *
    rw [List.find?_append, h]
    simp

theorem attachLoop_skip {rows : List Row} {next : Nat} {assoc : List Nat}
    {u : Nat} {n : String} (names : List String)
    (h : HasResolved rows assoc u n) :
    attachLoop rows next u (n :: names) assoc =
      attachLoop rows next u names assoc := by
  obtain ⟨t0, hf, hm⟩ := h
  have h1 : rowGetOrCreate rows next u n = (t0, rows, next) := by
    unfold rowGetOrCreate; rw [hf]
  have h2 : m2mAdd assoc t0.id = assoc := by unfold m2mAdd; rw [if_pos hm]
  rw [attachLoop_cons, h1, h2]

theorem attachLoop_drop_dup (u : Nat) (n : String) (ys : List String) :
    ∀ (zs : List String) rows next assoc, HasResolved rows assoc u n →
      attachLoop rows next u (ys ++ n :: zs) assoc =
        attachLoop rows next u (ys ++ zs) assoc := by
  induction ys with
  | nil => intro zs rows next assoc h; exact attachLoop_skip zs h
  | cons m ys ih =>
    intro zs rows next assoc h
    rw [List.cons_append, List.cons_append, attachLoop_cons, attachLoop_cons]
    exact ih zs _ _ _ (hasResolved_step next m h)

/-- Processing a payload list with a repeated entry gives the same table,
counter and association list as processing it with the repeat removed. -/
theorem attachLoop_dup (u : Nat) (n : String) (xs ys zs : List String)
    (rows : List Row) (next : Nat) (assoc : List Nat) :
    attachLoop rows next u (xs ++ n :: ys ++ n :: zs) assoc =
      attachLoop rows next u (xs ++ n :: ys ++ zs) assoc := by
  rw [List.append_assoc xs (n :: ys) (n :: zs),
    List.append_assoc xs (n :: ys) zs,
    attachLoop_append u xs ((n :: ys) ++ n :: zs),
    attachLoop_append u xs ((n :: ys) ++ zs)]
  rw [List.cons_append, List.cons_append, attachLoop_cons, attachLoop_cons]
  exact attachLoop_drop_dup u n ys zs _ _ _ (hasResolved_after _)

/-! ### Reading a recipe back after an update -/

theorem findRecipe_id {db : DB} {rid : Nat} {r : Recipe}
    (h : findRecipe db rid = some r) : r.id = rid := by
  have h2 := List.find?_some h
  simpa using h2

theorem find?_map_update {l : List Recipe} {rid : Nat} {r r2 : Recipe}
    (h : l.find? (fun x => x.id == rid) = some r) (h2 : r2.id = rid) :
    (l.map (fun x => if x.id == rid then r2 else x)).find?
      (fun x => x.id == rid) = some r2 := by
  induction l with
  | nil => cases h
  | cons a l ih =>
    by_cases ha : a.id = rid
    · have hpa : (a.id == rid) = true := by simpa using ha
      rw [List.map_cons, if_pos hpa]
      exact List.find?_cons_of_pos (p := fun (x : Recipe) => x.id == rid) _
        (by simpa using h2)
    · have hpa : ¬((a.id == rid) = true) := by simpa using ha
      rw [List.map_cons, if_neg hpa,
        List.find?_cons_of_neg (p := fun (x : Recipe) => x.id == rid) _ hpa]
      rw [List.find?_cons_of_neg (p := fun (x : Recipe) => x.id == rid) _ hpa] at h
      exact ih h

/-- The net effect of `RecipeSerializer.update` on the updated recipe: each
nested field is replaced by the loop's association list when present and
kept when absent, and each scalar attribute is set when present in the
validated data and kept when absent. -/
theorem recipeUpdate_find {db : DB} {u rid : Nat} {inp : RecipeUpdateInput}
    {r : Recipe} (hr : findRecipe db rid = some r) :
    ∃ r2, findRecipe (recipeUpdate db u rid inp) rid = some r2 ∧
      r2.tags = (match inp.tags with
        | none => r.tags
        | some l => (attachLoop db.tags db.nextTagId u l []).2.2) ∧
      r2.ingredients = (match inp.ingredients with
        | none => r.ingredients
        | some l =>
          (attachLoop db.ingredients db.nextIngredientId u l []).2.2) ∧
      r2.title = inp.title.getD r.title ∧
      r2.time_minutes = inp.time_minutes.getD r.time_minutes ∧
      r2.price = inp.price.getD r.price ∧
      r2.link = inp.link.getD r.link ∧
      r2.description = inp.description.getD r.description := by
  have hid : r.id = rid := findRecipe_id hr
  unfold recipeUpdate
  rw [hr]
  cases ht : inp.tags <;> cases hti : inp.ingredients <;>
    exact ⟨_, find?_map_update hr hid, rfl, rfl, rfl, rfl, rfl, rfl, rfl⟩

/-! ### Deduplication and id lookup for the view layer -/

theorem dedupRows_cons (t : Row) (rest : List Row) :
    dedupRows (t :: rest) = t :: dedupRows (rest.filter (fun x => x ≠ t)) := by
  rw [dedupRows]

theorem mem_dedupRows : ∀ (l : List Row) (x : Row), x ∈ dedupRows l ↔ x ∈ l := by
  intro l
  induction l using dedupRows.induct with
  | case1 => intro x; rw [dedupRows]
  | case2 t rest ih =>
    intro x
    rw [dedupRows_cons]
    by_cases hx : x = t
    · subst hx; simp
    · simp only [List.mem_cons, ih, List.mem_filter]
      constructor
      · rintro (rfl | ⟨h1, _⟩)
        · exact Or.inl rfl
        · exact Or.inr h1
      · rintro (rfl | h1)
        · exact Or.inl rfl
        · exact Or.inr ⟨h1, by simpa using hx⟩

theorem nodup_dedupRows : ∀ (l : List Row), (dedupRows l).Nodup := by
  intro l
  induction l using dedupRows.induct with
  | case1 => rw [dedupRows]; exact List.nodup_nil
  | case2 t rest ih =>
    rw [dedupRows_cons]
    refine List.nodup_cons.mpr ⟨?_, ih⟩
    intro hmem
    have h1 := (mem_dedupRows _ t).mp hmem
    have h2 := (List.mem_filter.mp h1).2
    simp at h2

theorem uniqueIds_eq_of_id {rows : List Row} (hu : UniqueIds rows) :
    ∀ x ∈ rows, ∀ y ∈ rows, x.id = y.id → x = y := by
  induction rows with
  | nil => intro x hx; cases hx
  | cons a rest ih =>
    intro x hx y hy hxy
    have hpw := List.pairwise_cons.mp hu
    rcases List.mem_cons.mp hx with rfl | hx2 <;>
      rcases List.mem_cons.mp hy with rfl | hy2
    · rfl
    · exact absurd hxy (hpw.1 y hy2)
    · exact absurd hxy.symm (hpw.1 x hx2)
    · exact ih hpw.2 x hx2 y hy2 hxy

theorem queryset_find_some {rows : List Row} {u tid : Nat} {t : Row}
    (ht : t ∈ rows) (hu : t.user = u) (hi : t.id = tid) :
    ∃ s, (rows.filter (fun x => x.user == u)).find?
      (fun x => x.id == tid) = some s := by
  have h1 : t ∈ rows.filter (fun x => x.user == u) :=
    List.mem_filter.mpr ⟨ht, by simp [hu]⟩
  have h2 : (((rows.filter (fun x => x.user == u))).find?
      (fun x => x.id == tid)).isSome :=
    List.find?_isSome.mpr ⟨t, h1, by simp [hi]⟩
  exact Option.isSome_iff_exists.mp h2

theorem rowPatch_find {rows : List Row} {u tid : Nat} {nm : String} {t : Row}
    (hu : UniqueIds rows) (ht : t ∈ rows) (h1 : t.user = u)
    (h2 : t.id = tid) :
    (rows.map (fun x =>
      if x.user == u && x.id == tid then { x with name := nm } else x)).find?
        (fun x => x.id == tid) = some { t with name := nm } := by
  induction rows with
  | nil => cases ht
  | cons a rest ih =>
    have hpw := List.pairwise_cons.mp hu
    rw [List.map_cons]
    by_cases ha : a.id = tid
    · have hat : a = t := by
        rcases List.mem_cons.mp ht with rfl | hmem
        · rfl
        · exact absurd (ha.trans h2.symm) (hpw.1 t hmem)
      subst hat
      have hc : (a.user == u && a.id == tid) = true := by simp [h1, h2]
      rw [if_pos hc]
      exact List.find?_cons_of_pos (p := fun (x : Row) => x.id == tid) _
        (by simpa using h2)
    · have hc : ¬((a.user == u && a.id == tid) = true) := by
        simp only [Bool.and_eq_true, beq_iff_eq]
        tauto
      rw [if_neg hc]
      have hpa : ¬((a.id == tid) = true) := by simpa using ha
      rw [List.find?_cons_of_neg (p := fun (x : Row) => x.id == tid) _ hpa]
      have ht2 : t ∈ rest := by
        rcases List.mem_cons.mp ht with rfl | hmem
        · exact absurd h2 ha
        · exact hmem
      exact ih hpw.2 ht2

/-! ### Claim theorems -/

/-- C1: for every recipe update, an omitted `tags` (resp. `ingredients`)
key leaves the recipe's existing tag (resp. ingredient) associations
unchanged, while a present list — possibly empty — makes the associations
afterwards exactly the ids resolved from the provided list, with all prior
associations removed. -/
theorem recipeUpdate_nested_frame (db : DB) (u rid : Nat)
    (inp : RecipeUpdateInput) (r : Recipe)
    (hr : findRecipe db rid = some r) :
    (inp.tags = none → ∃ r2,
      findRecipe (recipeUpdate db u rid inp) rid = some r2 ∧
      r2.tags = r.tags) ∧
    (∀ l, inp.tags = some l → ∃ r2,
      findRecipe (recipeUpdate db u rid inp) rid = some r2 ∧
      ∀ i, i ∈ r2.tags ↔ i ∈ resolveIds db.tags db.nextTagId u l) ∧
    (inp.ingredients = none → ∃ r2,
      findRecipe (recipeUpdate db u rid inp) rid = some r2 ∧
      r2.ingredients = r.ingredients) ∧
    (∀ l, inp.ingredients = some l → ∃ r2,
      findRecipe (recipeUpdate db u rid inp) rid = some r2 ∧
      ∀ i, i ∈ r2.ingredients ↔
        i ∈ resolveIds db.ingredients db.nextIngredientId u l) := by
  obtain ⟨r2, hfind, htags, hing, -, -, -, -, -⟩ :=
    @recipeUpdate_find db u rid inp r hr
  refine ⟨?_, ?_, ?_, ?_⟩
  · intro hnone
    rw [hnone] at htags
    exact ⟨r2, hfind, htags⟩
  · intro l hsome
    rw [hsome] at htags
    have htags2 : r2.tags = (attachLoop db.tags db.nextTagId u l []).2.2 :=
      htags
    refine ⟨r2, hfind, ?_⟩
    intro i
    rw [htags2, attachLoop_assoc_mem u l db.tags db.nextTagId [] i]
    simp
  · intro hnone
    rw [hnone] at hing
    exact ⟨r2, hfind, hing⟩
  · intro l hsome
    rw [hsome] at hing
    have hing2 : r2.ingredients =
        (attachLoop db.ingredients db.nextIngredientId u l []).2.2 := hing
    refine ⟨r2, hfind, ?_⟩
    intro i
    rw [hing2,
      attachLoop_assoc_mem u l db.ingredients db.nextIngredientId [] i]
    simp

/-- C2: on every recipe create or update with a nested tags/ingredients
list, each entry resolves to a row in the final table owned by the
requesting user with the entry's name, that row's id is associated to the
recipe, the row is the existing matching row when the table had one, and a
row absent from the prior table otherwise. -/
theorem recipeWrite_get_or_create (db : DB) (u rid : Nat)
    (cinp : RecipeCreateInput) (inp : RecipeUpdateInput) (r : Recipe)
    (hr : findRecipe db rid = some r) :
    (∀ l, cinp.tags = some l → ∀ n ∈ l, ∃ t : Row,
      t ∈ (recipeCreate db u cinp).2.tags ∧ t.user = u ∧ t.name = n ∧
      t.id ∈ (recipeCreate db u cinp).1.tags ∧
      (∀ t0, findMatch db.tags u n = some t0 → t = t0) ∧
      (findMatch db.tags u n = none → t ∉ db.tags)) ∧
    (∀ l, cinp.ingredients = some l → ∀ n ∈ l, ∃ t : Row,
      t ∈ (recipeCreate db u cinp).2.ingredients ∧ t.user = u ∧ t.name = n ∧
      t.id ∈ (recipeCreate db u cinp).1.ingredients ∧
      (∀ t0, findMatch db.ingredients u n = some t0 → t = t0) ∧
      (findMatch db.ingredients u n = none → t ∉ db.ingredients)) ∧
    (∀ l, inp.tags = some l → ∀ n ∈ l, ∃ t : Row, ∃ r2 : Recipe,
      t ∈ (recipeUpdate db u rid inp).tags ∧ t.user = u ∧ t.name = n ∧
      findRecipe (recipeUpdate db u rid inp) rid = some r2 ∧
      t.id ∈ r2.tags ∧
      (∀ t0, findMatch db.tags u n = some t0 → t = t0) ∧
      (findMatch db.tags u n = none → t ∉ db.tags)) ∧
    (∀ l, inp.ingredients = some l → ∀ n ∈ l, ∃ t : Row, ∃ r2 : Recipe,
      t ∈ (recipeUpdate db u rid inp).ingredients ∧ t.user = u ∧
      t.name = n ∧
      findRecipe (recipeUpdate db u rid inp) rid = some r2 ∧
      t.id ∈ r2.ingredients ∧
      (∀ t0, findMatch db.ingredients u n = some t0 → t = t0) ∧
      (findMatch db.ingredients u n = none → t ∉ db.ingredients)) := by
  refine ⟨?_, ?_, ?_, ?_⟩
  · intro l hl n hn
    obtain ⟨t, h1, h2, h3, h4, h5, h6⟩ :=
      attachLoop_resolves u l db.tags db.nextTagId [] n hn
    have e1 : (recipeCreate db u cinp).2.tags =
        (attachLoop db.tags db.nextTagId u l []).1 := by
      simp [recipeCreate, hl]
    have e2 : (recipeCreate db u cinp).1.tags =
        (attachLoop db.tags db.nextTagId u l []).2.2 := by
      simp [recipeCreate, hl]
    exact ⟨t, e1 ▸ h1, h2, h3, e2 ▸ h4, h5, h6⟩
  · intro l hl n hn
    obtain ⟨t, h1, h2, h3, h4, h5, h6⟩ :=
      attachLoop_resolves u l db.ingredients db.nextIngredientId [] n hn
    have e1 : (recipeCreate db u cinp).2.ingredients =
        (attachLoop db.ingredients db.nextIngredientId u l []).1 := by
      simp [recipeCreate, hl]
    have e2 : (recipeCreate db u cinp).1.ingredients =
        (attachLoop db.ingredients db.nextIngredientId u l []).2.2 := by
      simp [recipeCreate, hl]
    exact ⟨t, e1 ▸ h1, h2, h3, e2 ▸ h4, h5, h6⟩
  · intro l hl n hn
    obtain ⟨t, h1, h2, h3, h4, h5, h6⟩ :=
      attachLoop_resolves u l db.tags db.nextTagId [] n hn
    obtain ⟨r2, hfind, htags, -, -, -, -, -, -⟩ :=
      @recipeUpdate_find db u rid inp r hr
    rw [hl] at htags
    have htags2 : r2.tags = (attachLoop db.tags db.nextTagId u l []).2.2 :=
      htags
    have e1 : (recipeUpdate db u rid inp).tags =
        (attachLoop db.tags db.nextTagId u l []).1 := by
      unfold recipeUpdate
      rw [hr, hl]
    exact ⟨t, r2, e1 ▸ h1, h2, h3, hfind, htags2 ▸ h4, h5, h6⟩
  · intro l hl n hn
    obtain ⟨t, h1, h2, h3, h4, h5, h6⟩ :=
      attachLoop_resolves u l db.ingredients db.nextIngredientId [] n hn
    obtain ⟨r2, hfind, -, hing, -, -, -, -, -⟩ :=
      @recipeUpdate_find db u rid inp r hr
    rw [hl] at hing
    have hing2 : r2.ingredients =
        (attachLoop db.ingredients db.nextIngredientId u l []).2.2 := hing
    have e1 : (recipeUpdate db u rid inp).ingredients =
        (attachLoop db.ingredients db.nextIngredientId u l []).1 := by
      unfold recipeUpdate
      rw [hr, hl]
    exact ⟨t, r2, e1 ▸ h1, h2, h3, hfind, hing2 ▸ h4, h5, h6⟩

/-- C3: recipe create and update preserve the invariant that no two tag
rows and no two ingredient rows share a `(user, name)` pair, and resolving
an entry whose `(user, name)` already exists returns the existing row
without creating a second one. -/
theorem uniquePairs_invariant (db : DB) (u rid : Nat)
    (cinp : RecipeCreateInput) (inp : RecipeUpdateInput)
    (h1 : UniquePairs db.tags) (h2 : UniquePairs db.ingredients) :
    UniquePairs (recipeCreate db u cinp).2.tags ∧
    UniquePairs (recipeCreate db u cinp).2.ingredients ∧
    UniquePairs (recipeUpdate db u rid inp).tags ∧
    UniquePairs (recipeUpdate db u rid inp).ingredients ∧
    (∀ (rows : List Row) (next uu : Nat) (nn : String) (t0 : Row),
      findMatch rows uu nn = some t0 →
      rowGetOrCreate rows next uu nn = (t0, rows, next)) := by
  refine ⟨?_, ?_, ?_, ?_, ?_⟩
  · exact attachLoop_uniquePairs u (cinp.tags.getD []) db.tags
      db.nextTagId [] h1
  · exact attachLoop_uniquePairs u (cinp.ingredients.getD [])
      db.ingredients db.nextIngredientId [] h2
  · unfold recipeUpdate
    cases hfr : findRecipe db rid with
    | none => exact h1
    | some r =>
      cases hti : inp.tags with
      | none => exact h1
      | some l => exact attachLoop_uniquePairs u l db.tags db.nextTagId [] h1
  · unfold recipeUpdate
    cases hfr : findRecipe db rid with
    | none => exact h2
    | some r =>
      cases hti : inp.ingredients with
      | none => exact h2
      | some l =>
        exact attachLoop_uniquePairs u l db.ingredients db.nextIngredientId [] h2
  · intro rows next uu nn t0 hf
    unfold rowGetOrCreate
    rw [hf]

/-- C9: a recipe create whose validated payload omits the `tags` (resp.
`ingredients`) key produces a recipe with no tag (resp. ingredient)
associations — create treats an omitted nested field as the empty list —
whereas update treats an omitted nested field as leave-unchanged. -/
theorem recipeCreate_omitted_empty (db : DB) (u rid : Nat)
    (cinp : RecipeCreateInput) (inp : RecipeUpdateInput) (r : Recipe)
    (hr : findRecipe db rid = some r) :
    (cinp.tags = none → (recipeCreate db u cinp).1.tags = []) ∧
    (cinp.ingredients = none →
      (recipeCreate db u cinp).1.ingredients = []) ∧
    (inp.tags = none → ∃ r2,
      findRecipe (recipeUpdate db u rid inp) rid = some r2 ∧
      r2.tags = r.tags) ∧
    (inp.ingredients = none → ∃ r2,
      findRecipe (recipeUpdate db u rid inp) rid = some r2 ∧
      r2.ingredients = r.ingredients) := by
  obtain ⟨r2, hfind, htags, hing, -, -, -, -, -⟩ :=
    @recipeUpdate_find db u rid inp r hr
  refine ⟨?_, ?_, ?_, ?_⟩
  · intro h; simp [recipeCreate, h, attachLoop_nil]
  · intro h; simp [recipeCreate, h, attachLoop_nil]
  · intro hnone
    rw [hnone] at htags
    exact ⟨r2, hfind, htags⟩
  · intro hnone
    rw [hnone] at hing
    exact ⟨r2, hfind, hing⟩

/-- C10: a recipe create or update whose nested tags (resp. ingredients)
list contains the same entry twice gives exactly the result of the payload
with the duplicate removed; the duplicated entry yields a single matching
row in the table and a single association on the recipe. -/
theorem duplicate_entry_idempotent (db : DB) (u rid : Nat)
    (cinp : RecipeCreateInput) (inp : RecipeUpdateInput)
    (xs ys zs : List String) (n : String) (r : Recipe) :
    (cinp.tags = some (xs ++ n :: ys ++ n :: zs) →
      recipeCreate db u cinp =
        recipeCreate db u { cinp with tags := some (xs ++ n :: ys ++ zs) } ∧
      (UniquePairs db.tags → ∃ t : Row,
        (recipeCreate db u cinp).2.tags.filter
          (fun x => x.user == u && x.name == n) = [t] ∧
        (recipeCreate db u cinp).1.tags.count t.id = 1)) ∧
    (cinp.ingredients = some (xs ++ n :: ys ++ n :: zs) →
      recipeCreate db u cinp = recipeCreate db u
        { cinp with ingredients := some (xs ++ n :: ys ++ zs) } ∧
      (UniquePairs db.ingredients → ∃ t : Row,
        (recipeCreate db u cinp).2.ingredients.filter
          (fun x => x.user == u && x.name == n) = [t] ∧
        (recipeCreate db u cinp).1.ingredients.count t.id = 1)) ∧
    (inp.tags = some (xs ++ n :: ys ++ n :: zs) →
      recipeUpdate db u rid inp = recipeUpdate db u rid
        { inp with tags := some (xs ++ n :: ys ++ zs) } ∧
      (UniquePairs db.tags → findRecipe db rid = some r →
        ∃ t : Row, ∃ r2 : Recipe,
        findRecipe (recipeUpdate db u rid inp) rid = some r2 ∧
        (recipeUpdate db u rid inp).tags.filter
          (fun x => x.user == u && x.name == n) = [t] ∧
        r2.tags.count t.id = 1)) ∧
    (inp.ingredients = some (xs ++ n :: ys ++ n :: zs) →
      recipeUpdate db u rid inp = recipeUpdate db u rid
        { inp with ingredients := some (xs ++ n :: ys ++ zs) } ∧
      (UniquePairs db.ingredients → findRecipe db rid = some r →
        ∃ t : Row, ∃ r2 : Recipe,
        findRecipe (recipeUpdate db u rid inp) rid = some r2 ∧
        (recipeUpdate db u rid inp).ingredients.filter
          (fun x => x.user == u && x.name == n) = [t] ∧
        r2.ingredients.count t.id = 1)) := by
  have hn : n ∈ xs ++ n :: ys ++ n :: zs := by simp
  refine ⟨?_, ?_, ?_, ?_⟩
  · intro hl
    constructor
    · simp only [recipeCreate, hl, Option.getD_some]
      rw [attachLoop_dup u n xs ys zs]
    · intro hu
      obtain ⟨t, h1, h2⟩ := attachLoop_once u (xs ++ n :: ys ++ n :: zs)
        db.tags db.nextTagId n hu hn
      have e1 : (recipeCreate db u cinp).2.tags =
          (attachLoop db.tags db.nextTagId u (xs ++ n :: ys ++ n :: zs) []).1 := by
        simp [recipeCreate, hl]
      have e2 : (recipeCreate db u cinp).1.tags =
          (attachLoop db.tags db.nextTagId u (xs ++ n :: ys ++ n :: zs) []).2.2 := by
        simp [recipeCreate, hl]
      exact ⟨t, by rw [e1]; exact h1, by rw [e2]; exact h2⟩
  · intro hl
    constructor
    · simp only [recipeCreate, hl, Option.getD_some]
      rw [attachLoop_dup u n xs ys zs]
    · intro hu
      obtain ⟨t, h1, h2⟩ := attachLoop_once u (xs ++ n :: ys ++ n :: zs)
        db.ingredients db.nextIngredientId n hu hn
      have e1 : (recipeCreate db u cinp).2.ingredients =
          (attachLoop db.ingredients db.nextIngredientId u
            (xs ++ n :: ys ++ n :: zs) []).1 := by
        simp [recipeCreate, hl]
      have e2 : (recipeCreate db u cinp).1.ingredients =
          (attachLoop db.ingredients db.nextIngredientId u
            (xs ++ n :: ys ++ n :: zs) []).2.2 := by
        simp [recipeCreate, hl]
      exact ⟨t, by rw [e1]; exact h1, by rw [e2]; exact h2⟩
  · intro hl
    constructor
    · cases hfr : findRecipe db rid with
      | none => simp only [recipeUpdate, hfr]
      | some r0 =>
        simp only [recipeUpdate, hfr, hl]
        rw [attachLoop_dup u n xs ys zs]
    · intro hu hr
      obtain ⟨t, h1, h2⟩ := attachLoop_once u (xs ++ n :: ys ++ n :: zs)
        db.tags db.nextTagId n hu hn
      obtain ⟨r2, hfind, htags, -, -, -, -, -, -⟩ :=
        @recipeUpdate_find db u rid inp r hr
      rw [hl] at htags
      have htags2 : r2.tags =
          (attachLoop db.tags db.nextTagId u (xs ++ n :: ys ++ n :: zs) []).2.2 :=
        htags
      have e1 : (recipeUpdate db u rid inp).tags =
          (attachLoop db.tags db.nextTagId u (xs ++ n :: ys ++ n :: zs) []).1 := by
        unfold recipeUpdate
        rw [hr, hl]
      exact ⟨t, r2, hfind, by rw [e1]; exact h1, by rw [htags2]; exact h2⟩
  · intro hl
    constructor
    · cases hfr : findRecipe db rid with
      | none => simp only [recipeUpdate, hfr]
      | some r0 =>
        simp only [recipeUpdate, hfr, hl]
        rw [attachLoop_dup u n xs ys zs]
    · intro hu hr
      obtain ⟨t, h1, h2⟩ := attachLoop_once u (xs ++ n :: ys ++ n :: zs)
        db.ingredients db.nextIngredientId n hu hn
      obtain ⟨r2, hfind, -, hing, -, -, -, -, -⟩ :=
        @recipeUpdate_find db u rid inp r hr
      rw [hl] at hing
      have hing2 : r2.ingredients =
          (attachLoop db.ingredients db.nextIngredientId u
            (xs ++ n :: ys ++ n :: zs) []).2.2 := hing
      have e1 : (recipeUpdate db u rid inp).ingredients =
          (attachLoop db.ingredients db.nextIngredientId u
            (xs ++ n :: ys ++ n :: zs) []).1 := by
        unfold recipeUpdate
        rw [hr, hl]
      exact ⟨t, r2, hfind, by rw [e1]; exact h1, by rw [hing2]; exact h2⟩

/-! ### View-layer helper lemmas -/

theorem mem_assigned_join {rows : List Row} {recipes : List Recipe}
    {assocOf : Recipe → List Nat} {u : Nat} {x : Row} :
    (x ∈ (rows.filter (fun t => t.user == u)).flatMap (fun t =>
      (recipes.filter (fun r => (assocOf r).contains t.id)).map
        (fun _ => t))) ↔
    (x ∈ rows ∧ x.user = u ∧ ∃ r ∈ recipes, x.id ∈ assocOf r) := by
  simp only [List.mem_flatMap, List.mem_map, List.mem_filter]
  constructor
  · rintro ⟨t, ⟨ht, htu⟩, r, ⟨hr, hra⟩, rfl⟩
    exact ⟨ht, by simpa using htu, r, hr, by simpa using hra⟩
  · rintro ⟨hx, hxu, r, hr, hra⟩
    exact ⟨x, ⟨hx, by simp [hxu]⟩, r, ⟨hr, by simpa using hra⟩, rfl⟩

theorem rowList_assigned_spec (rows : List Row) (recipes : List Recipe)
    (assocOf : Recipe → List Nat) (u : Nat) (t : Row)
    (ht : t ∈ rows) (hu : t.user = u) :
    (t ∈ (rowList rows recipes assocOf (some u) true).2 ↔
      ∃ r ∈ recipes, t.id ∈ assocOf r) ∧
    (t ∈ (rowList rows recipes assocOf (some u) true).2 →
      (rowList rows recipes assocOf (some u) true).2.count t = 1) := by
  have hres : (rowList rows recipes assocOf (some u) true).2 =
      dedupRows ((rows.filter (fun x => x.user == u)).flatMap (fun x =>
        (recipes.filter (fun r => (assocOf r).contains x.id)).map
          (fun _ => x))) := rfl
  rw [hres]
  constructor
  · rw [mem_dedupRows, mem_assigned_join]
    constructor
    · rintro ⟨-, -, h⟩; exact h
    · intro h; exact ⟨ht, hu, h⟩
  · intro hmem
    exact List.count_eq_one_of_mem (nodup_dedupRows _) hmem

theorem rowList_owned (rows : List Row) (recipes : List Recipe)
    (assocOf : Recipe → List Nat) (u : Nat) (ao : Bool) :
    ∀ t ∈ (rowList rows recipes assocOf (some u) ao).2, t.user = u := by
  intro t htm
  cases ao with
  | false =>
    have h1 : t ∈ rows.filter (fun x => x.user == u) := htm
    have h2 := (List.mem_filter.mp h1).2
    simpa using h2
  | true =>
    have h1 : t ∈ dedupRows ((rows.filter (fun x => x.user == u)).flatMap
        (fun x => (recipes.filter (fun r => (assocOf r).contains x.id)).map
          (fun _ => x))) := htm
    rw [mem_dedupRows, mem_assigned_join] at h1
    exact h1.2.1

theorem rowPatch_spec {rows : List Row} {u tid : Nat} {nm : String}
    {t : Row} (hids : UniqueIds rows) (ht : t ∈ rows) (h1 : t.user = u)
    (h2 : t.id = tid) :
    (rowPatch rows (some u) tid nm).1 = 200 ∧
    findRow (rowPatch rows (some u) tid nm).2 tid =
      some { t with name := nm } := by
  obtain ⟨s, hs⟩ := queryset_find_some ht h1 h2
  unfold rowPatch
  dsimp only
  rw [hs]
  exact ⟨rfl, rowPatch_find hids ht h1 h2⟩

theorem rowDelete_spec {rows : List Row} {u tid : Nat} {t : Row}
    (hids : UniqueIds rows) (ht : t ∈ rows) (h1 : t.user = u)
    (h2 : t.id = tid) :
    (rowDelete rows (some u) tid).1 = 204 ∧
    ∀ x ∈ (rowDelete rows (some u) tid).2, x.id ≠ tid := by
  obtain ⟨s, hs⟩ := queryset_find_some ht h1 h2
  unfold rowDelete
  dsimp only
  rw [hs]
  refine ⟨rfl, ?_⟩
  intro x hx hxid
  have hxr := (List.mem_filter.mp hx).1
  have hcond := (List.mem_filter.mp hx).2
  have hxt : x = t := uniqueIds_eq_of_id hids x hxr t ht (hxid.trans h2.symm)
  subst hxt
  simp [h1, h2] at hcond

theorem recipePatch_spec {db : DB} {u rid : Nat} {inp : RecipeUpdateInput}
    {r : Recipe} (hr : findRecipe db rid = some r) (hu : r.user = u) :
    (recipePatch db (some u) rid inp).1 = 200 ∧
    (recipePatch db (some u) rid inp).2 = recipeUpdate db u rid inp := by
  have hrm : r ∈ db.recipes := List.mem_of_find?_eq_some hr
  have hrid : r.id = rid := findRecipe_id hr
  have hm1 : r ∈ db.recipes.filter (fun x => x.user == u) :=
    List.mem_filter.mpr ⟨hrm, by simp [hu]⟩
  have hm2 : ((db.recipes.filter (fun x => x.user == u)).find?
      (fun x => x.id == rid)).isSome :=
    List.find?_isSome.mpr ⟨r, hm1, by simp [hrid]⟩
  obtain ⟨s, hs⟩ := Option.isSome_iff_exists.mp hm2
  unfold recipePatch
  dsimp only
  rw [hs]
  exact ⟨rfl, rfl⟩

/-- C4: on an authenticated assigned_only=1 list request, a tag/ingredient
of the requesting user appears in the result exactly when it is associated
with at least one recipe, and then exactly once even when associated with
several recipes. -/
theorem assignedOnly_filter (db : DB) (u : Nat) (t : Row) :
    (t ∈ db.tags → t.user = u →
      (t ∈ (tagList db (some u) true).2 ↔
        ∃ r ∈ db.recipes, t.id ∈ r.tags) ∧
      (t ∈ (tagList db (some u) true).2 →
        (tagList db (some u) true).2.count t = 1)) ∧
    (t ∈ db.ingredients → t.user = u →
      (t ∈ (ingredientList db (some u) true).2 ↔
        ∃ r ∈ db.recipes, t.id ∈ r.ingredients) ∧
      (t ∈ (ingredientList db (some u) true).2 →
        (ingredientList db (some u) true).2.count t = 1)) :=
  ⟨fun ht hu =>
    rowList_assigned_spec db.tags db.recipes (fun r => r.tags) u t ht hu,
   fun ht hu =>
    rowList_assigned_spec db.ingredients db.recipes
      (fun r => r.ingredients) u t ht hu⟩

/-- C5: every record returned by an authenticated tag or ingredient list
request is owned by the requesting user. -/
theorem list_owned_by_user (db : DB) (u : Nat) (ao : Bool) :
    (∀ t ∈ (tagList db (some u) ao).2, t.user = u) ∧
    (∀ t ∈ (ingredientList db (some u) ao).2, t.user = u) :=
  ⟨rowList_owned db.tags db.recipes (fun r => r.tags) u ao,
   rowList_owned db.ingredients db.recipes (fun r => r.ingredients) u ao⟩

/-- C6: every unauthenticated request to a private endpoint — tag,
ingredient or recipe, list, patch or delete — gets HTTP 401. -/
theorem unauthenticated_401 (db : DB) (ao : Bool) (tid rid : Nat)
    (nm : String) (inp : RecipeUpdateInput) :
    (tagList db none ao).1 = 401 ∧
    (ingredientList db none ao).1 = 401 ∧
    (recipeList db none).1 = 401 ∧
    (tagPatch db none tid nm).1 = 401 ∧
    (ingredientPatch db none tid nm).1 = 401 ∧
    (tagDelete db none tid).1 = 401 ∧
    (ingredientDelete db none tid).1 = 401 ∧
    (recipePatch db none rid inp).1 = 401 :=
  ⟨rfl, rfl, rfl, rfl, rfl, rfl, rfl, rfl⟩

/-- C7: an authenticated PATCH of an existing tag, ingredient or recipe
owned by the requester returns 200, and a subsequent read of the record
returns the new field values from the payload (absent recipe fields keep
their previous values). -/
theorem patch_persists (db : DB) (u tid rid : Nat) (nm : String)
    (inp : RecipeUpdateInput) (t i : Row) (r : Recipe) :
    (UniqueIds db.tags → t ∈ db.tags → t.user = u → t.id = tid →
      (tagPatch db (some u) tid nm).1 = 200 ∧
      findRow (tagPatch db (some u) tid nm).2.tags tid =
        some { t with name := nm }) ∧
    (UniqueIds db.ingredients → i ∈ db.ingredients → i.user = u →
      i.id = tid →
      (ingredientPatch db (some u) tid nm).1 = 200 ∧
      findRow (ingredientPatch db (some u) tid nm).2.ingredients tid =
        some { i with name := nm }) ∧
    (findRecipe db rid = some r → r.user = u →
      (recipePatch db (some u) rid inp).1 = 200 ∧
      ∃ r2, findRecipe (recipePatch db (some u) rid inp).2 rid = some r2 ∧
        r2.title = inp.title.getD r.title ∧
        r2.time_minutes = inp.time_minutes.getD r.time_minutes ∧
        r2.price = inp.price.getD r.price ∧
        r2.link = inp.link.getD r.link ∧
        r2.description = inp.description.getD r.description) := by
  refine ⟨?_, ?_, ?_⟩
  · intro hids ht h1 h2
    exact rowPatch_spec hids ht h1 h2
  · intro hids ht h1 h2
    exact rowPatch_spec hids ht h1 h2
  · intro hr hu
    obtain ⟨hst, heq⟩ := @recipePatch_spec db u rid inp r hr hu
    obtain ⟨r2, hfind, -, -, h3, h4, h5, h6, h7⟩ :=
      @recipeUpdate_find db u rid inp r hr
    exact ⟨hst, r2, by rw [heq]; exact hfind, h3, h4, h5, h6, h7⟩

/-- C8: an authenticated DELETE of an existing tag or ingredient owned by
the requester returns 204 and no row with that id remains in the table. -/
theorem delete_removes (db : DB) (u tid : Nat) (t i : Row) :
    (UniqueIds db.tags → t ∈ db.tags → t.user = u → t.id = tid →
      (tagDelete db (some u) tid).1 = 204 ∧
      ∀ x ∈ (tagDelete db (some u) tid).2.tags, x.id ≠ tid) ∧
    (UniqueIds db.ingredients → i ∈ db.ingredients → i.user = u →
      i.id = tid →
      (ingredientDelete db (some u) tid).1 = 204 ∧
      ∀ x ∈ (ingredientDelete db (some u) tid).2.ingredients,
        x.id ≠ tid) := by
  refine ⟨?_, ?_⟩
  · intro hids ht h1 h2
    exact rowDelete_spec hids ht h1 h2
  · intro hids ht h1 h2
    exact rowDelete_spec hids ht h1 h2

/-! ### Concrete witnesses -/

def tagVegan : Row := ⟨1, 7, "Vegan"⟩

def tagDessert : Row := ⟨2, 7, "Dessert"⟩

def ingSalt : Row := ⟨1, 7, "Salt"⟩

def pieRecipe : Recipe := ⟨5, 7, "Pie", 10, 250, "", "", [1], [1]⟩

def myDb : DB := ⟨[tagVegan, tagDessert], [ingSalt], [pieRecipe], 3, 2, 6⟩

def updNone : RecipeUpdateInput :=
  ⟨none, none, none, none, none, none, none⟩

def updLists : RecipeUpdateInput :=
  ⟨some "Cake", none, none, none, none, some ["Vegan", "Lunch"], some []⟩

def crInp : RecipeCreateInput :=
  ⟨"Soup", 15, 300, "", "", some ["Vegan", "Soupy"], none⟩

def crNoTags : RecipeCreateInput :=
  ⟨"Stew", 20, 400, "", "", none, none⟩

def crDup : RecipeCreateInput :=
  ⟨"Chili", 30, 500, "", "", some ["Vegan", "Vegan"], none⟩

theorem recipeUpdate_nested_frame_witness :
    findRecipe myDb 5 = some pieRecipe ∧
    updLists.tags = some ["Vegan", "Lunch"] ∧
    (∃ r2, findRecipe (recipeUpdate myDb 7 5 updLists) 5 = some r2 ∧
      ∀ i, i ∈ r2.tags ↔
        i ∈ resolveIds myDb.tags myDb.nextTagId 7 ["Vegan", "Lunch"]) :=
  ⟨by decide, rfl,
   (recipeUpdate_nested_frame myDb 7 5 updLists pieRecipe
     (by decide)).2.1 ["Vegan", "Lunch"] rfl⟩

theorem recipeWrite_get_or_create_witness :
    findRecipe myDb 5 = some pieRecipe ∧
    crInp.tags = some ["Vegan", "Soupy"] ∧
    (∀ n ∈ (["Vegan", "Soupy"] : List String), ∃ t : Row,
      t ∈ (recipeCreate myDb 7 crInp).2.tags ∧ t.user = 7 ∧ t.name = n ∧
      t.id ∈ (recipeCreate myDb 7 crInp).1.tags ∧
      (∀ t0, findMatch myDb.tags 7 n = some t0 → t = t0) ∧
      (findMatch myDb.tags 7 n = none → t ∉ myDb.tags)) :=
  ⟨by decide, rfl,
   (recipeWrite_get_or_create myDb 7 5 crInp updNone pieRecipe
     (by decide)).1 ["Vegan", "Soupy"] rfl⟩

theorem uniquePairs_invariant_witness :
    UniquePairs myDb.tags ∧ UniquePairs myDb.ingredients ∧
    (UniquePairs (recipeCreate myDb 7 crInp).2.tags ∧
     UniquePairs (recipeCreate myDb 7 crInp).2.ingredients ∧
     UniquePairs (recipeUpdate myDb 7 5 updNone).tags ∧
     UniquePairs (recipeUpdate myDb 7 5 updNone).ingredients ∧
     (∀ (rows : List Row) (next uu : Nat) (nn : String) (t0 : Row),
       findMatch rows uu nn = some t0 →
       rowGetOrCreate rows next uu nn = (t0, rows, next))) :=
  ⟨by decide, by decide,
   uniquePairs_invariant myDb 7 5 crInp updNone (by decide) (by decide)⟩

theorem assignedOnly_filter_witness :
    tagVegan ∈ myDb.tags ∧ tagVegan.user = 7 ∧
    ((tagVegan ∈ (tagList myDb (some 7) true).2 ↔
        ∃ r ∈ myDb.recipes, tagVegan.id ∈ r.tags) ∧
     (tagVegan ∈ (tagList myDb (some 7) true).2 →
       (tagList myDb (some 7) true).2.count tagVegan = 1)) :=
  ⟨by decide, by decide,
   (assignedOnly_filter myDb 7 tagVegan).1 (by decide) (by decide)⟩

theorem list_owned_by_user_witness :
    tagVegan ∈ (tagList myDb (some 7) false).2 ∧ tagVegan.user = 7 :=
  ⟨by decide, (list_owned_by_user myDb 7 false).1 tagVegan (by decide)⟩

theorem patch_persists_witness :
    UniqueIds myDb.tags ∧ tagVegan ∈ myDb.tags ∧ tagVegan.user = 7 ∧
    tagVegan.id = 1 ∧
    ((tagPatch myDb (some 7) 1 "Comfort").1 = 200 ∧
     findRow (tagPatch myDb (some 7) 1 "Comfort").2.tags 1 =
       some { tagVegan with name := "Comfort" }) :=
  ⟨by decide, by decide, by decide, by decide,
   (patch_persists myDb 7 1 5 "Comfort" updNone tagVegan ingSalt
     pieRecipe).1 (by decide) (by decide) (by decide) (by decide)⟩

theorem delete_removes_witness :
    UniqueIds myDb.tags ∧ tagVegan ∈ myDb.tags ∧ tagVegan.user = 7 ∧
    tagVegan.id = 1 ∧
    ((tagDelete myDb (some 7) 1).1 = 204 ∧
     ∀ x ∈ (tagDelete myDb (some 7) 1).2.tags, x.id ≠ 1) :=
  ⟨by decide, by decide, by decide, by decide,
   (delete_removes myDb 7 1 tagVegan ingSalt).1
     (by decide) (by decide) (by decide) (by decide)⟩

theorem recipeCreate_omitted_empty_witness :
    findRecipe myDb 5 = some pieRecipe ∧ crNoTags.tags = none ∧
    (recipeCreate myDb 7 crNoTags).1.tags = [] :=
  ⟨by decide, rfl,
   (recipeCreate_omitted_empty myDb 7 5 crNoTags updNone pieRecipe
     (by decide)).1 rfl⟩

theorem duplicate_entry_idempotent_witness :
    crDup.tags = some ([] ++ "Vegan" :: [] ++ "Vegan" :: []) ∧
    recipeCreate myDb 7 crDup =
      recipeCreate myDb 7
        { crDup with tags := some ([] ++ "Vegan" :: [] ++ []) } :=
  ⟨rfl,
   ((duplicate_entry_idempotent myDb 7 5 crDup updNone [] [] [] "Vegan"
     pieRecipe).1 rfl).1⟩

end RecipeApp
